import Mathlib

/-!
Verification of `scripts/recode_multi.py`: a filter over a variant table
that drops multiallelic loci, drops single-row loci with REF = "N", and
rescues two-row loci whose reference allele never occurs in any sample
genotype, merging the pair into one reinterpreted row.

The table is modelled as a list of rows; allele and genotype cells are
lists of characters; the locus key, the per-locus counting, the genotype
flattening of line 124 of the script, and the rescue/filter/recombine
steps are translated function by function.
-/

namespace RecodeMulti

/-- One row of the VariantsToTable output: CHROM, POS, AF, REF, ALT and
the per-sample genotype columns (those whose name contains `.GT`), in
column order. AF is only ever copied, so it is kept as an inert cell. -/
structure Row where
  chrom : String
  pos : Nat
  af : String
  ref : List Char
  alt : List Char
  gts : List (List Char)
deriving DecidableEq, Repr

/-- Locus key of a row: `"%s-%s" % (chrom, pos)` (line 162). -/
def locus (r : Row) : String := r.chrom ++ "-" ++ toString r.pos

/-- Insert a key into the key list of a Counter, keeping first-appearance
order. -/
def insertKey (ks : List String) (k : String) : List String :=
  if k ∈ ks then ks else ks ++ [k]

/-- The keys of `table(chunk['locus'])` in first-appearance order (Python
dict / Counter iteration order). -/
def counterKeys (rows : List Row) : List String :=
  rows.foldl (fun ks r => insertKey ks (locus r)) []

/-- Multiplicity of `k` in the list, i.e. `table(lst)[k]` (lines 29-39). -/
def table (ks : List String) (k : String) : Nat :=
  (ks.filter (fun x => x = k)).length

/-- Row count of a locus key, `table(df['locus'])[l]`. -/
def loccount (rows : List Row) (l : String) : Nat :=
  table (rows.map locus) l

/-- The rows of the table carrying a given locus key. -/
def rowsAt (rows : List Row) (l : String) : List Row :=
  rows.filter (fun r => locus r = l)

/-- Loci with exactly one row (line 64). -/
def goodloci (rows : List Row) : List String :=
  (counterKeys rows).filter (fun l => loccount rows l = 1)

/-- keep_goodloci (lines 59-68): keep rows of single-row loci, then drop
rows with REF = "N". -/
def keep_goodloci (rows : List Row) : List Row :=
  (rows.filter (fun r => locus r ∈ goodloci rows)).filter
    (fun r => r.ref ≠ ['N'])

/-- Remove every occurrence of one character, `str.replace(c, "")` for a
single-character pattern. -/
def removeAll (c : Char) (l : List Char) : List Char :=
  l.filter (fun x => x ≠ c)

/-- Whether `pat` is an initial segment of `s`. -/
def startsWith : List Char → List Char → Bool
  | [], _ => true
  | _ :: _, [] => false
  | p :: ps, c :: cs => p = c && startsWith ps cs

/-- Python substring test `pat in s`. -/
def inStr (pat : List Char) : List Char → Bool
  | [] => startsWith pat []
  | c :: cs => startsWith pat (c :: cs) || inStr pat cs

/-- Flattened genotypes of one row (line 124 of the script): per genotype
column, `.str.replace("/", "")` removes every `/` inside the cell; the
chained `.replace("|", "")` is a pandas `Series.replace`, replacing a cell
whose whole value equals `|` by the empty string; the cells are joined and
every `N` is removed from the joined string. -/
def rowGts (r : Row) : List Char :=
  removeAll 'N' (List.flatten (r.gts.map (fun g =>
    if removeAll '/' g = ['|'] then [] else removeAll '/' g)))

/-- Reading of the flattening in the specification text: concatenate the
genotype cells and strip every `/`, every `|` and every `N`. -/
def rowGtsSpec (r : Row) : List Char :=
  (List.flatten r.gts).filter (fun c => decide (c ≠ '/' ∧ c ≠ '|' ∧ c ≠ 'N'))

/-- Loci with exactly two rows (line 107). -/
def nloci (rows : List Row) : List String :=
  (counterKeys rows).filter (fun l => loccount rows l = 2)

/-- adjust_freqs (lines 42-56), restricted to the row the caller keeps:
row 0 with row 1's AF and with ALT set to `"<alt1>+<alt2>"`. -/
def adjust_freqs (r0 r1 : Row) : Row :=
  { r0 with af := r1.af, alt := r0.alt ++ '+' :: r1.alt }

/-- Body of the per-locus loop of get_noref_snps (lines 114-132) for the
two rows of a candidate locus: discard when the reference allele of row 0
occurs in a flattened genotype string, or when an ALT equals `*`;
otherwise keep the adjusted row 0. -/
def rescuePair : List Row → Option Row
  | [r0, r1] =>
    if inStr r0.ref (rowGts r0) || inStr r0.ref (rowGts r1) then none
    else if r0.alt = ['*'] ∨ r1.alt = ['*'] then none
    else some (adjust_freqs r0 r1)
  | _ => none

/-- get_noref_snps (lines 91-135): the rescued rows, one per qualifying
two-row locus, in Counter key order. -/
def get_noref_snps (rows : List Row) : List Row :=
  (nloci rows).filterMap (fun l => rescuePair (rowsAt rows l))

/-- recombine (lines 138-155). -/
def recombine (dfs df : List Row) : List Row :=
  if 0 < dfs.length then
    if 0 < df.length then dfs ++ df else dfs
  else df

/-- The whole computation of main (lines 157-175) between reading and
writing the table. -/
def pipeline (rows : List Row) : List Row :=
  recombine (get_noref_snps rows) (keep_goodloci rows)

/-- The raw input of main: whether the table parses, which of the required
columns are present, and the parsed rows. -/
structure RawInput where
  parseOk : Bool
  hasCHROM : Bool
  hasPOS : Bool
  hasAF : Bool
  hasREF : Bool
  hasALT : Bool
  rows : List Row
deriving Repr

/-- main (lines 157-175) with its failure points: `read_csv` fails on an
unparsable table; line 162 reads CHROM and POS; inside get_noref_snps,
lines 118-119 read REF and ALT for each two-row locus and line 54 reads AF
for each qualifying locus; line 67 reads REF unconditionally. A missing
column raises at the first access, before the output write of line 175. -/
def mainE (t : RawInput) : Except Unit (List Row) :=
  if t.parseOk = false then Except.error ()
  else if t.hasCHROM = false ∨ t.hasPOS = false then Except.error ()
  else if nloci t.rows ≠ [] ∧ (t.hasREF = false ∨ t.hasALT = false) then
    Except.error ()
  else if get_noref_snps t.rows ≠ [] ∧ t.hasAF = false then Except.error ()
  else if t.hasREF = false then Except.error ()
  else Except.ok (pipeline t.rows)

/-- Two-row locus chr1-100 whose REF `A` occurs in no genotype. -/
def w1a : Row := ⟨"chr1", 100, "0.3", ['A'], ['T'], [['T', '/', 'G']]⟩

def w1b : Row := ⟨"chr1", 100, "0.4", ['A'], ['G'], [['T', '/', 'G']]⟩

def w1rows : List Row := [w1a, w1b]

/-- A row whose genotype cell `A|T` keeps its phased separator after the
flattening of line 124. -/
def c2a : Row := ⟨"chr1", 7, "0.1", ['A'], ['T'], [['A', '|', 'T']]⟩

def c2b : Row := ⟨"chr1", 7, "0.2", ['A'], ['G'], [['A', '|', 'T']]⟩

def c2rows : List Row := [c2a, c2b]

/-- A row whose genotype cells use only the unphased separator. -/
def w2 : Row := ⟨"chr2", 3, "0.5", ['C'], ['T'], [['C', '/', 'T'], ['N', '/', 'T']]⟩

/-- Two-row locus with REF = N that the script rescues; its output row
keeps REF = N and is dropped by a second run. -/
def c3rows : List Row :=
  [⟨"chr5", 11, "0.3", ['N'], ['A'], [['A', '/', 'T']]⟩,
   ⟨"chr5", 11, "0.6", ['N'], ['T'], [['A', '/', 'T']]⟩]

def w3rows : List Row := [⟨"chr6", 4, "0.2", ['G'], ['C'], [['C', '/', 'C']]⟩]

/-- Two-row locus whose REF `A` occurs in a genotype of row 0. -/
def w5a : Row := ⟨"chr1", 200, "0.3", ['A'], ['T'], [['A', '/', 'T']]⟩

def w5b : Row := ⟨"chr1", 200, "0.4", ['A'], ['G'], [['G', '/', 'G']]⟩

def w5rows : List Row := [w5a, w5b]

def w6 : Row := ⟨"chr3", 10, "0.2", ['C'], ['G'], [['C', '/', 'G']]⟩

def w6rows : List Row := [w6]

def w7rows : List Row :=
  [⟨"chr4", 8, "0.1", ['A'], ['C'], [['C', '/', 'C']]⟩,
   ⟨"chr4", 8, "0.2", ['A'], ['G'], [['G', '/', 'G']]⟩,
   ⟨"chr4", 8, "0.3", ['A'], ['T'], [['T', '/', 'T']]⟩]

def w8 : Row := ⟨"chr2", 50, "0.9", ['N'], ['A'], [['A', '/', 'A']]⟩

def w8rows : List Row := [w8]

def w10a : Row := ⟨"chr7", 21, "0.25", ['N'], ['A'], [['A', '/', 'T']]⟩

def w10b : Row := ⟨"chr7", 21, "0.75", ['N'], ['T'], [['A', '/', 'T']]⟩

def w10rows : List Row := [w10a, w10b]

/-- A single clean row as it would parse from a table lacking the AF
column (the af cell is inert: nothing reads it on this input). -/
def t9row : Row := ⟨"chr3", 10, "", ['C'], ['G'], [['C', '/', 'G']]⟩

/-- A parsable input lacking only the AF column, with one single-row
locus. -/
def t9 : RawInput := ⟨true, true, true, false, true, true, [t9row]⟩

theorem recombine_eq_append (dfs df : List Row) : recombine dfs df = dfs ++ df := by
  unfold recombine
  rcases dfs with _ | ⟨a, t⟩ <;> rcases df with _ | ⟨b, s⟩ <;> simp

theorem mem_insertKey {ks : List String} {k a : String} :
    a ∈ insertKey ks k ↔ a ∈ ks ∨ a = k := by
  unfold insertKey
  by_cases h : k ∈ ks
  · rw [if_pos h]
    constructor
    · exact Or.inl
    · rintro (h1 | rfl)
      · exact h1
      · exact h
  · rw [if_neg h]
    simp

theorem nodup_insertKey {ks : List String} {k : String} (h : ks.Nodup) :
    (insertKey ks k).Nodup := by
  unfold insertKey
  by_cases hk : k ∈ ks
  · rwa [if_pos hk]
  · rw [if_neg hk]
    rw [List.nodup_append]
    refine ⟨h, List.nodup_singleton k, ?_⟩
    intro a ha hb
    rw [List.mem_singleton] at hb
    exact hk (hb ▸ ha)

theorem mem_foldl_insertKey (rows : List Row) :
    ∀ (ks : List String) (a : String),
      (a ∈ rows.foldl (fun ks r => insertKey ks (locus r)) ks ↔
        a ∈ ks ∨ a ∈ rows.map locus) := by
  induction rows with
  | nil => intro ks a; simp
  | cons r t ih =>
    intro ks a
    simp only [List.foldl_cons, List.map_cons, List.mem_cons]
    rw [ih, mem_insertKey]
    tauto

theorem mem_counterKeys {rows : List Row} {a : String} :
    a ∈ counterKeys rows ↔ a ∈ rows.map locus := by
  unfold counterKeys
  rw [mem_foldl_insertKey]
  simp

theorem nodup_foldl_insertKey (rows : List Row) :
    ∀ ks : List String, ks.Nodup →
      (rows.foldl (fun ks r => insertKey ks (locus r)) ks).Nodup := by
  induction rows with
  | nil => intro ks h; simpa using h
  | cons r t ih => intro ks h; exact ih _ (nodup_insertKey h)

theorem counterKeys_nodup (rows : List Row) : (counterKeys rows).Nodup :=
  nodup_foldl_insertKey rows [] List.nodup_nil

theorem nloci_nodup (rows : List Row) : (nloci rows).Nodup :=
  List.Nodup.filter _ (counterKeys_nodup rows)

theorem loccount_eq (rows : List Row) (l : String) :
    loccount rows l = (rowsAt rows l).length := by
  unfold loccount table rowsAt
  rw [List.filter_map]
  rw [List.length_map]
  rfl

theorem mem_rowsAt {rows : List Row} {l : String} {r : Row} :
    r ∈ rowsAt rows l ↔ r ∈ rows ∧ locus r = l := by
  simp [rowsAt, List.mem_filter]

theorem locus_mem_counterKeys {rows : List Row} {r : Row} (h : r ∈ rows) :
    locus r ∈ counterKeys rows :=
  mem_counterKeys.mpr (List.mem_map_of_mem locus h)

theorem mem_nloci {rows : List Row} {l : String} :
    l ∈ nloci rows ↔ l ∈ counterKeys rows ∧ loccount rows l = 2 := by
  simp [nloci, List.mem_filter]

theorem mem_goodloci {rows : List Row} {l : String} :
    l ∈ goodloci rows ↔ l ∈ counterKeys rows ∧ loccount rows l = 1 := by
  simp [goodloci, List.mem_filter]

theorem rowsAt_append (xs ys : List Row) (l : String) :
    rowsAt (xs ++ ys) l = rowsAt xs l ++ rowsAt ys l :=
  List.filter_append xs ys

theorem rowsAt_cons (r : Row) (xs : List Row) (l : String) :
    rowsAt (r :: xs) l =
      if locus r = l then r :: rowsAt xs l else rowsAt xs l := by
  unfold rowsAt
  rw [List.filter_cons]
  by_cases h : locus r = l <;> simp [h]

theorem rowsAt_keep_goodloci (rows : List Row) (l : String) :
    rowsAt (keep_goodloci rows) l =
      if loccount rows l = 1
      then (rowsAt rows l).filter (fun r => r.ref ≠ ['N'])
      else [] := by
  unfold keep_goodloci
  unfold rowsAt
  rw [List.filter_filter, List.filter_filter]
  by_cases h : loccount rows l = 1
  · rw [if_pos h, List.filter_filter]
    apply List.filter_congr
    intro r hr
    by_cases hl : locus r = l
    · have hin : l ∈ goodloci rows :=
        mem_goodloci.mpr ⟨hl ▸ locus_mem_counterKeys hr, h⟩
      simp [hl, hin]
    · simp [hl]
  · rw [if_neg h, List.filter_eq_nil_iff]
    intro r hr hcontra
    simp only [Bool.and_eq_true, decide_eq_true_eq] at hcontra
    obtain ⟨⟨hl, -⟩, hin⟩ := hcontra
    rw [hl] at hin
    exact h (mem_goodloci.mp hin).2

theorem locus_adjust_freqs (r0 r1 : Row) : locus (adjust_freqs r0 r1) = locus r0 := rfl

theorem locus_rescuePair {rows : List Row} {l : String} {r : Row}
    (h : rescuePair (rowsAt rows l) = some r) : locus r = l := by
  rcases hx : rowsAt rows l with _ | ⟨r0, _ | ⟨r1, _ | ⟨r2, t⟩⟩⟩ <;> rw [hx] at h
  · exact absurd h (by simp [rescuePair])
  · exact absurd h (by simp [rescuePair])
  · have hm : r0 ∈ rowsAt rows l := by rw [hx]; exact List.mem_cons_self r0 [r1]
    have hl0 : locus r0 = l := (mem_rowsAt.mp hm).2
    simp only [rescuePair] at h
    split_ifs at h <;>
      first
        | exact Option.noConfusion h
        | (injection h with he; rw [← he, locus_adjust_freqs, hl0])
  · exact absurd h (by simp [rescuePair])

theorem rowsAt_filterMap (rows : List Row) (l : String) :
    ∀ ks : List String, ks.Nodup →
      rowsAt (ks.filterMap (fun k => rescuePair (rowsAt rows k))) l =
        if l ∈ ks then (rescuePair (rowsAt rows l)).toList else [] := by
  intro ks
  induction ks with
  | nil => intro _; simp [rowsAt]
  | cons k t ih =>
    intro hnd
    rw [List.nodup_cons] at hnd
    obtain ⟨hk, ht⟩ := hnd
    rw [List.filterMap_cons]
    rcases hfk : rescuePair (rowsAt rows k) with _ | r
    · rw [ih ht]
      by_cases hlk : l = k
      · subst hlk
        rw [if_neg hk, if_pos (List.mem_cons_self l t), hfk]
        rfl
      · by_cases hlt : l ∈ t
        · rw [if_pos hlt, if_pos (List.mem_cons_of_mem k hlt)]
        · rw [if_neg hlt, if_neg (by simp [hlk, hlt])]
    · have hlr : locus r = k := locus_rescuePair hfk
      rw [rowsAt_cons, ih ht]
      by_cases hlk : l = k
      · subst hlk
        rw [if_pos hlr, if_neg hk, if_pos (List.mem_cons_self l t), hfk]
        rfl
      · rw [if_neg (by rw [hlr]; exact fun he => hlk he.symm)]
        by_cases hlt : l ∈ t
        · rw [if_pos hlt, if_pos (List.mem_cons_of_mem k hlt)]
        · rw [if_neg hlt, if_neg (by simp [hlk, hlt])]

theorem rowsAt_get_noref_snps (rows : List Row) (l : String) :
    rowsAt (get_noref_snps rows) l =
      if l ∈ nloci rows then (rescuePair (rowsAt rows l)).toList else [] := by
  unfold get_noref_snps
  exact rowsAt_filterMap rows l (nloci rows) (nloci_nodup rows)

theorem rowsAt_pipeline (rows : List Row) (l : String) :
    rowsAt (pipeline rows) l =
      (if l ∈ nloci rows then (rescuePair (rowsAt rows l)).toList else []) ++
      (if loccount rows l = 1
       then (rowsAt rows l).filter (fun r => r.ref ≠ ['N'])
       else []) := by
  unfold pipeline
  rw [recombine_eq_append, rowsAt_append, rowsAt_get_noref_snps,
    rowsAt_keep_goodloci]

theorem rowsAt_pipeline_le_one (rows : List Row) (l : String) :
    (rowsAt (pipeline rows) l).length ≤ 1 := by
  rw [rowsAt_pipeline]
  by_cases hn : l ∈ nloci rows
  · have hc : loccount rows l = 2 := (mem_nloci.mp hn).2
    rw [if_pos hn, if_neg (by rw [hc]; decide), List.append_nil]
    rcases rescuePair (rowsAt rows l) with _ | r <;> simp
  · rw [if_neg hn, List.nil_append]
    by_cases h1 : loccount rows l = 1
    · rw [if_pos h1]
      calc ((rowsAt rows l).filter (fun r => r.ref ≠ ['N'])).length
          ≤ (rowsAt rows l).length := List.length_filter_le _ _
        _ = 1 := by rw [← loccount_eq, h1]
    · rw [if_neg h1]
      decide

theorem nodup_map_locus {xs : List Row}
    (h : ∀ l, (rowsAt xs l).length ≤ 1) : (xs.map locus).Nodup := by
  induction xs with
  | nil => simp
  | cons r t ih =>
    simp only [List.map_cons, List.nodup_cons]
    constructor
    · intro hmem
      obtain ⟨r2, hr2, hl⟩ := List.mem_map.mp hmem
      have hle := h (locus r)
      rw [rowsAt_cons, if_pos rfl] at hle
      have hr2m : r2 ∈ rowsAt t (locus r) := mem_rowsAt.mpr ⟨hr2, hl⟩
      have : 0 < (rowsAt t (locus r)).length :=
        List.length_pos.mpr (List.ne_nil_of_mem hr2m)
      simp only [List.length_cons] at hle
      omega
    · apply ih
      intro l
      have hle := h l
      rw [rowsAt_cons] at hle
      by_cases hrl : locus r = l
      · rw [if_pos hrl] at hle
        simp only [List.length_cons] at hle
        omega
      · rwa [if_neg hrl] at hle

theorem pipeline_locus_nodup (rows : List Row) :
    ((pipeline rows).map locus).Nodup :=
  nodup_map_locus (rowsAt_pipeline_le_one rows)

theorem mem_keep_goodloci {rows : List Row} {r : Row} :
    r ∈ keep_goodloci rows ↔
      r ∈ rows ∧ loccount rows (locus r) = 1 ∧ r.ref ≠ ['N'] := by
  unfold keep_goodloci
  simp only [List.mem_filter, decide_eq_true_eq]
  constructor
  · rintro ⟨⟨hr, hg⟩, hn⟩
    exact ⟨hr, (mem_goodloci.mp hg).2, hn⟩
  · rintro ⟨hr, hc, hn⟩
    exact ⟨⟨hr, mem_goodloci.mpr ⟨locus_mem_counterKeys hr, hc⟩⟩, hn⟩

theorem mem_get_noref_snps {rows : List Row} {r : Row} :
    r ∈ get_noref_snps rows ↔
      ∃ l ∈ nloci rows, rescuePair (rowsAt rows l) = some r := by
  unfold get_noref_snps
  exact List.mem_filterMap

theorem rowsAt_pipeline_two (rows : List Row) (l : String) (r0 r1 : Row)
    (h2 : rowsAt rows l = [r0, r1]) :
    rowsAt (pipeline rows) l = (rescuePair [r0, r1]).toList := by
  have hc : loccount rows l = 2 := by rw [loccount_eq, h2]; rfl
  have hmem : l ∈ counterKeys rows := by
    have hm : r0 ∈ rowsAt rows l := by rw [h2]; exact List.mem_cons_self r0 [r1]
    obtain ⟨hr, hl⟩ := mem_rowsAt.mp hm
    exact hl ▸ locus_mem_counterKeys hr
  have hn : l ∈ nloci rows := mem_nloci.mpr ⟨hmem, hc⟩
  rw [rowsAt_pipeline, if_pos hn, if_neg (by rw [hc]; decide),
    List.append_nil, h2]

theorem rowsAt_pipeline_one (rows : List Row) (l : String) (r : Row)
    (h1 : rowsAt rows l = [r]) :
    rowsAt (pipeline rows) l = [r].filter (fun r2 => r2.ref ≠ ['N']) := by
  have hc : loccount rows l = 1 := by rw [loccount_eq, h1]; rfl
  have hn : l ∉ nloci rows := by
    intro hmem
    have h2 := (mem_nloci.mp hmem).2
    rw [hc] at h2
    exact absurd h2 (by decide)
  rw [rowsAt_pipeline, if_neg hn, List.nil_append, if_pos hc, h1]

theorem rowsAt_pipeline_other (rows : List Row) (l : String)
    (h1 : loccount rows l ≠ 1) (h2 : loccount rows l ≠ 2) :
    rowsAt (pipeline rows) l = [] := by
  have hn : l ∉ nloci rows := fun hmem => h2 (mem_nloci.mp hmem).2
  rw [rowsAt_pipeline, if_neg hn, List.nil_append, if_neg h1]

theorem not_mem_removeAll (c : Char) (l : List Char) : c ∉ removeAll c l := by
  simp [removeAll, List.mem_filter]

theorem mem_of_mem_removeAll {c d : Char} {l : List Char}
    (h : d ∈ removeAll c l) : d ∈ l :=
  (List.mem_filter.mp h).1

theorem inStr_singleton_eq_false {c : Char} {s : List Char} (h : c ∉ s) :
    inStr [c] s = false := by
  induction s with
  | nil => rfl
  | cons a t ih =>
    have hca : c ≠ a := fun he => h (by rw [he]; exact List.mem_cons_self a t)
    have ht : c ∉ t := fun hm => h (List.mem_cons_of_mem a hm)
    simp [inStr, startsWith, hca, ih ht]

theorem not_mem_rowGts_N (r : Row) : ('N' : Char) ∉ rowGts r :=
  not_mem_removeAll 'N' _

theorem inStr_N_rowGts (r : Row) : inStr ['N'] (rowGts r) = false :=
  inStr_singleton_eq_false (not_mem_rowGts_N r)

theorem flatten_agrees (L : List (List Char)) (h : ∀ g ∈ L, ('|' : Char) ∉ g) :
    (List.flatten L).filter (fun c => decide (c ≠ '/' ∧ c ≠ '|' ∧ c ≠ 'N')) =
      removeAll 'N' (List.flatten (L.map (fun g =>
        if removeAll '/' g = ['|'] then [] else removeAll '/' g))) := by
  induction L with
  | nil => simp [removeAll]
  | cons g t ih =>
    have hg : ('|' : Char) ∉ g := h g (List.mem_cons_self g t)
    have ht : ∀ g2 ∈ t, ('|' : Char) ∉ g2 :=
      fun g2 hg2 => h g2 (List.mem_cons_of_mem g hg2)
    have hbr : ¬removeAll '/' g = ['|'] := by
      intro he
      apply hg
      apply mem_of_mem_removeAll (c := '/')
      rw [he]
      exact List.mem_cons_self '|' []
    simp only [List.flatten_cons, List.map_cons, List.filter_append,
      if_neg hbr]
    rw [ih ht]
    unfold removeAll
    rw [List.filter_append]
    congr 1
    rw [List.filter_filter]
    apply List.filter_congr
    intro c hc
    have hcp : c ≠ '|' := fun he => hg (he ▸ hc)
    by_cases h1 : c = '/' <;> by_cases h2 : c = 'N' <;> simp [h1, h2, hcp]

theorem pipeline_fixed {out : List Row}
    (hle : ∀ l, (rowsAt out l).length ≤ 1)
    (href : ∀ r ∈ out, r.ref ≠ ['N']) :
    pipeline out = out := by
  have hn : nloci out = [] := by
    rw [nloci, List.filter_eq_nil_iff]
    intro l hl
    simp only [decide_eq_true_eq]
    intro hc
    rw [loccount_eq] at hc
    have := hle l
    omega
  have hdfs : get_noref_snps out = [] := by
    unfold get_noref_snps
    rw [hn]
    rfl
  have hkeep : keep_goodloci out = out := by
    unfold keep_goodloci
    have h1 : out.filter (fun r => locus r ∈ goodloci out) = out := by
      rw [List.filter_eq_self]
      intro r hr
      simp only [decide_eq_true_eq]
      apply mem_goodloci.mpr
      refine ⟨locus_mem_counterKeys hr, ?_⟩
      rw [loccount_eq]
      have hge : 0 < (rowsAt out (locus r)).length :=
        List.length_pos.mpr (List.ne_nil_of_mem (mem_rowsAt.mpr ⟨hr, rfl⟩))
      have := hle (locus r)
      omega
    rw [h1, List.filter_eq_self]
    intro r hr
    simpa using href r hr
  rw [pipeline, hdfs, hkeep, recombine_eq_append, List.nil_append]

theorem rescued_rowsAt (rows : List Row) (l : String) (r0 r1 : Row)
    (h2 : rowsAt rows l = [r0, r1])
    (hg0 : inStr r0.ref (rowGts r0) = false)
    (hg1 : inStr r0.ref (rowGts r1) = false)
    (ha0 : r0.alt ≠ ['*']) (ha1 : r1.alt ≠ ['*']) :
    rowsAt (pipeline rows) l = [adjust_freqs r0 r1] := by
  rw [rowsAt_pipeline_two rows l r0 r1 h2]
  simp [rescuePair, hg0, hg1, ha0, ha1]

/-- C1: a locus with exactly two rows whose row-0 reference allele occurs
in neither row's flattened genotype string and whose two ALT alleles both
differ from `*` yields exactly one output row: row 0 with row 1's AF and
with ALT the concatenation alt1 `+` alt2, all other fields from row 0. -/
theorem c1_noref_locus_merged (rows : List Row) (l : String) (r0 r1 : Row)
    (h2 : rowsAt rows l = [r0, r1])
    (hg0 : inStr r0.ref (rowGts r0) = false)
    (hg1 : inStr r0.ref (rowGts r1) = false)
    (ha0 : r0.alt ≠ ['*']) (ha1 : r1.alt ≠ ['*']) :
    rowsAt (pipeline rows) l =
      [{ r0 with af := r1.af, alt := r0.alt ++ '+' :: r1.alt }] :=
  rescued_rowsAt rows l r0 r1 h2 hg0 hg1 ha0 ha1

theorem c1_witness :
    rowsAt w1rows "chr1-100" = [w1a, w1b] ∧
      rowsAt (pipeline w1rows) "chr1-100" =
        [{ w1a with af := w1b.af, alt := w1a.alt ++ '+' :: w1b.alt }] :=
  ⟨by decide, c1_noref_locus_merged w1rows "chr1-100" w1a w1b (by decide)
    (by decide) (by decide) (by decide) (by decide)⟩

/-- C2 (amended): the flattened sequence of line 124 removes every `/`
inside a genotype cell and every `N` from the concatenation, but removes
`|` only when a whole cell equals `|`; when no genotype cell of the row
contains `|`, it coincides with the sequence the claim describes. -/
theorem c2_flatten_agrees_without_pipe (r : Row)
    (h : ∀ g ∈ r.gts, ('|' : Char) ∉ g) : rowGtsSpec r = rowGts r := by
  unfold rowGtsSpec rowGts
  exact flatten_agrees r.gts h

/-- C2 counterexample: in a candidate two-row locus whose first row has
the single genotype cell `A|T`, the code's flattened sequence keeps the
`|`, so it differs from the claimed all-separators-removed sequence. -/
theorem c2_counterexample :
    loccount c2rows (locus c2a) = 2 ∧ rowGtsSpec c2a ≠ rowGts c2a := by decide

theorem c2_witness :
    (∀ g ∈ w2.gts, ('|' : Char) ∉ g) ∧ rowGtsSpec w2 = rowGts w2 :=
  ⟨by decide, c2_flatten_agrees_without_pipe w2 (by decide)⟩

/-- C3 (amended): a second run leaves the output unchanged provided every
output row's REF differs from `N`; rescued rows may carry REF = N, and on
such outputs the second run drops them, so idempotence on the full image
fails. -/
theorem c3_idempotent_on_nonN_output (rows : List Row)
    (h : ∀ r ∈ pipeline rows, r.ref ≠ ['N']) :
    pipeline (pipeline rows) = pipeline rows :=
  pipeline_fixed (rowsAt_pipeline_le_one rows) h

/-- C3 counterexample: the output for a rescued REF = N locus is dropped
by a second run. -/
theorem c3_counterexample : pipeline (pipeline c3rows) ≠ pipeline c3rows := by
  decide

theorem c3_witness :
    (∀ r ∈ pipeline w3rows, r.ref ≠ ['N']) ∧
      pipeline (pipeline w3rows) = pipeline w3rows :=
  ⟨by decide, c3_idempotent_on_nonN_output w3rows (by decide)⟩

/-- C4: the final output never repeats a locus key (hence never repeats a
row), and the rescued rows and the clean rows carry disjoint locus keys. -/
theorem c4_output_loci_unique (rows : List Row) :
    ((pipeline rows).map locus).Nodup ∧
      List.Disjoint ((get_noref_snps rows).map locus)
        ((keep_goodloci rows).map locus) := by
  refine ⟨pipeline_locus_nodup rows, ?_⟩
  intro a ha hb
  obtain ⟨r1, hr1, hl1⟩ := List.mem_map.mp ha
  obtain ⟨r2, hr2, hl2⟩ := List.mem_map.mp hb
  obtain ⟨k, hk, hsk⟩ := mem_get_noref_snps.mp hr1
  have hlk : locus r1 = k := locus_rescuePair hsk
  have hc2 : loccount rows k = 2 := (mem_nloci.mp hk).2
  have hc1 : loccount rows (locus r2) = 1 := (mem_keep_goodloci.mp hr2).2.1
  rw [hl2] at hc1
  rw [hlk] at hl1
  rw [hl1] at hc2
  rw [hc1] at hc2
  exact absurd hc2 (by decide)

/-- C5: a locus with exactly two rows whose row-0 reference allele occurs
in a flattened genotype string of one of the rows is entirely absent from
the output. -/
theorem c5_ref_present_locus_dropped (rows : List Row) (l : String)
    (r0 r1 : Row) (h2 : rowsAt rows l = [r0, r1])
    (hg : inStr r0.ref (rowGts r0) = true ∨ inStr r0.ref (rowGts r1) = true) :
    rowsAt (pipeline rows) l = [] := by
  rw [rowsAt_pipeline_two rows l r0 r1 h2]
  rcases hg with h | h <;> simp [rescuePair, h]

theorem c5_witness :
    rowsAt w5rows "chr1-200" = [w5a, w5b] ∧
      rowsAt (pipeline w5rows) "chr1-200" = [] :=
  ⟨by decide, c5_ref_present_locus_dropped w5rows "chr1-200" w5a w5b
    (by decide) (Or.inl (by decide))⟩

/-- C6: a locus with exactly one row whose REF differs from `N` passes
through to the output unchanged. -/
theorem c6_single_row_kept (rows : List Row) (l : String) (r : Row)
    (h1 : rowsAt rows l = [r]) (hr : r.ref ≠ ['N']) :
    rowsAt (pipeline rows) l = [r] := by
  rw [rowsAt_pipeline_one rows l r h1]
  simp [hr]

theorem c6_witness :
    rowsAt w6rows "chr3-10" = [w6] ∧ rowsAt (pipeline w6rows) "chr3-10" = [w6] :=
  ⟨by decide, c6_single_row_kept w6rows "chr3-10" w6 (by decide) (by decide)⟩

/-- C7: a locus with more than two rows is entirely absent from the
output. -/
theorem c7_multirow_dropped (rows : List Row) (l : String)
    (h : 2 < (rowsAt rows l).length) : rowsAt (pipeline rows) l = [] := by
  apply rowsAt_pipeline_other <;> rw [loccount_eq] <;> omega

theorem c7_witness :
    2 < (rowsAt w7rows "chr4-8").length ∧
      rowsAt (pipeline w7rows) "chr4-8" = [] :=
  ⟨by decide, c7_multirow_dropped w7rows "chr4-8" (by decide)⟩

/-- C8: a locus with exactly one row whose REF is the sentinel `N` is
entirely absent from the output. -/
theorem c8_single_N_dropped (rows : List Row) (l : String) (r : Row)
    (h1 : rowsAt rows l = [r]) (hr : r.ref = ['N']) :
    rowsAt (pipeline rows) l = [] := by
  rw [rowsAt_pipeline_one rows l r h1]
  simp [hr]

theorem c8_witness :
    rowsAt w8rows "chr2-50" = [w8] ∧ rowsAt (pipeline w8rows) "chr2-50" = [] :=
  ⟨by decide, c8_single_N_dropped w8rows "chr2-50" w8 (by decide) (by decide)⟩

/-- C9 (amended): the run aborts before any output exactly when the table
is unparsable, or CHROM, POS or REF is missing, or ALT is missing while
some locus has exactly two rows, or AF is missing while some locus
qualifies for rescue; a missing AF or ALT that the rescue path never
reads leaves the run to complete and write output. -/
theorem c9_abort_iff (t : RawInput) :
    mainE t = Except.error () ↔
      t.parseOk = false ∨ t.hasCHROM = false ∨ t.hasPOS = false ∨
      t.hasREF = false ∨ (nloci t.rows ≠ [] ∧ t.hasALT = false) ∨
      (get_noref_snps t.rows ≠ [] ∧ t.hasAF = false) := by
  unfold mainE
  split_ifs with h1 h2 h3 h4 h5 <;> simp_all <;> tauto

/-- C9 counterexample: a parsable table lacking only the AF column, with
all loci single-row, completes and writes its output instead of
aborting. -/
theorem c9_counterexample :
    t9.hasAF = false ∧ mainE t9 = Except.ok [t9row] := ⟨rfl, rfl⟩

/-- C10: a two-row locus whose REF is the sentinel `N` and whose ALT
alleles both differ from `*` is rescued: the output holds exactly the
merged row, whose REF is still `N`. -/
theorem c10_refN_two_row_rescued (rows : List Row) (l : String) (r0 r1 : Row)
    (h2 : rowsAt rows l = [r0, r1]) (hrefN : r0.ref = ['N'])
    (ha0 : r0.alt ≠ ['*']) (ha1 : r1.alt ≠ ['*']) :
    rowsAt (pipeline rows) l = [adjust_freqs r0 r1] ∧
      (adjust_freqs r0 r1).ref = ['N'] := by
  have hg0 : inStr r0.ref (rowGts r0) = false := by
    rw [hrefN]; exact inStr_N_rowGts r0
  have hg1 : inStr r0.ref (rowGts r1) = false := by
    rw [hrefN]; exact inStr_N_rowGts r1
  exact ⟨rescued_rowsAt rows l r0 r1 h2 hg0 hg1 ha0 ha1, hrefN⟩

theorem c10_witness :
    rowsAt w10rows "chr7-21" = [w10a, w10b] ∧
      rowsAt (pipeline w10rows) "chr7-21" = [adjust_freqs w10a w10b] ∧
      (adjust_freqs w10a w10b).ref = ['N'] :=
  ⟨by decide, c10_refN_two_row_rescued w10rows "chr7-21" w10a w10b (by decide)
    (by decide) (by decide) (by decide)⟩

end RecodeMulti
